import Mathlib

/-!
Shallow embedding of the selection-set resolution core of the juniper
GraphQL execution engine (`src/juniper/src/types/base.rs`): the
`Arguments` materializer, the `is_excluded` directive evaluator, the
`merge_key_into` helper and the `resolve_selection_set_into` resolver,
together with the default `GraphQLValue::resolve` implementation.

Rust `panic!` / `.expect` / `.unwrap` faults are modelled by `Option`
(`none` = panic).  The user-supplied resolver callbacks
(`resolve_field`, `resolve_into_type`, `concrete_type_name`,
`type_name`) are modelled as fields of a `GValue` record of functions,
mirroring the object-safe `GraphQLValue` trait.  The scalar/input value
representation, explicitly out of scope per the spec, is modelled by a
small closed type with the capabilities the core uses (clone, equality,
null test, scalar construction).
-/

namespace Juniper

/-- Scalar payloads appearing in values, modelling the opaque `ScalarValue`
capability set used by the core (construction and equality). -/
inductive SVal where
  | str (s : String)
  | int (i : Int)
  | bool (b : Bool)
  deriving DecidableEq, Repr

/-- Input values supplied for arguments and directive conditions,
modelling `InputValue` restricted to the capabilities the core consumes:
null test, variable substitution, scalar construction, equality. -/
inductive InputValue where
  | null
  | scalar (s : SVal)
  | variable (v : String)
  deriving DecidableEq, Repr

/-- Null test on input values, modelling `InputValue::is_null`. -/
def InputValue.isNull : InputValue → Bool
  | .null => true
  | _ => false

/-- Association-list lookup keyed by strings; models both `IndexMap` keyed
access and variable lookup. -/
def lookupKey {α : Type} (m : List (String × α)) (k : String) : Option α :=
  match m with
  | [] => none
  | (k', v) :: rest => if k' = k then some v else lookupKey rest k

/-- Key-presence test, modelling `IndexMap::contains_key`. -/
def containsKey {α : Type} (m : List (String × α)) (k : String) : Bool :=
  (lookupKey m k).isSome

/-- Insertion-order-preserving insert, modelling `IndexMap::insert`: an
existing key keeps its position and gets the new value; a new key is
appended at the end. -/
def insertIM {α : Type} (m : List (String × α)) (k : String) (v : α) :
    List (String × α) :=
  if containsKey m k then
    m.map (fun p => if p.1 = k then (k, v) else p)
  else
    m ++ [(k, v)]

/-- Variable bindings consumed by the core: a read-only mapping from
variable name to resolved input value. -/
abbrev Vars : Type := List (String × InputValue)

/-- Modelled from the spec: `InputValue::into_const` (in `ast.rs`, outside
`src/`) resolves an AST input value against the current variable bindings;
a variable is replaced by its bound value, an unbound variable by `Null`,
and non-variable values are returned unchanged. -/
def intoConst (iv : InputValue) (vars : Vars) : InputValue :=
  match iv with
  | .variable n => (lookupKey vars n).getD .null
  | x => x

/-- Modelled from the spec: the `FromInputValue` conversion to `bool` (in
`ast.rs`, outside `src/`) succeeds exactly on boolean scalars. -/
def convertBool (iv : InputValue) : Option Bool :=
  match iv with
  | .scalar (.bool b) => some b
  | _ => none

/-- Declared argument metadata: name and optional default value, modelling
`schema::meta::Argument`. -/
structure MetaArg where
  name : String
  defaultValue : Option InputValue
  deriving DecidableEq, Repr

/-- Field argument container, modelling `Arguments` from `base.rs`. -/
structure ArgumentsM where
  args : Option (List (String × InputValue))
  deriving DecidableEq, Repr

/-- Condition under which `Arguments::new` fills in a declared default:
the supplied mapping lacks the key, or maps it to `Null`
(`!args.contains_key(name) || args[name].is_null()`). -/
def needsDefault (m : List (String × InputValue)) (name : String) : Bool :=
  match lookupKey m name with
  | none => true
  | some v => v.isNull

/-- Body of the default-filling loop of `Arguments::new` for one declared
argument. -/
def fillArgStep (m : List (String × InputValue)) (arg : MetaArg) :
    List (String × InputValue) :=
  if needsDefault m arg.name then
    match arg.defaultValue with
    | some d => insertIM m arg.name d
    | none => m
  else m

/-- Constructor of the argument container, modelling `Arguments::new`:
when metadata is present and no arguments were supplied, start from an
empty mapping; then for each declared argument whose key is absent or
`Null`, insert its default value (when it has one). -/
def ArgumentsM.new (args0 : Option (List (String × InputValue)))
    (metaArgs : Option (List MetaArg)) : ArgumentsM :=
  let args := if metaArgs.isSome && args0.isNone then some [] else args0
  match args, metaArgs with
  | some m, some mas => ⟨some (mas.foldl fillArgStep m)⟩
  | a, _ => ⟨a⟩

/-- Typed read access, modelling `Arguments::get::<T>`: look up the key in
the stored mapping (when any) and convert, where `conv` stands for the
`FromInputValue` conversion of the target type `T`. -/
def ArgumentsM.get {α : Type} (a : ArgumentsM) (conv : InputValue → Option α)
    (key : String) : Option α :=
  (a.args.bind (fun m => lookupKey m key)).bind conv

/-- Directive attached to a selection, modelling `ast::Directive`: a name
and an optional argument mapping. -/
structure DirectiveM where
  name : String
  arguments : Option (List (String × InputValue))
  deriving DecidableEq, Repr

/-- Evaluation of a directive's boolean `if` condition against the
variable bindings, modelling the
`directive.arguments.iter().flat_map(get "if").flat_map(into_const.convert).next()`
chain in `is_excluded`; `none` models the absent/ill-typed case whose
`.unwrap()` panics. -/
def evalCondition (d : DirectiveM) (vars : Vars) : Option Bool :=
  (d.arguments.bind (fun m => lookupKey m "if")).bind
    (fun v => convertBool (intoConst v vars))

/-- Loop of `is_excluded` over the attached directives; `none` models the
panic of `.unwrap()` on a condition that fails to evaluate. -/
def isExcludedGo (vars : Vars) : List DirectiveM → Option Bool
  | [] => some false
  | d :: rest =>
    match evalCondition d vars with
    | none => none
    | some c =>
      if (d.name = "skip" && c) || (d.name = "include" && !c) then some true
      else isExcludedGo vars rest

/-- Directive evaluator, modelling `is_excluded`: `some true` means the
selection is excluded, `none` models a panic. -/
def isExcluded (dirs : Option (List DirectiveM)) (vars : Vars) : Option Bool :=
  match dirs with
  | none => some false
  | some ds => isExcludedGo vars ds

/-- Result values produced by resolution, modelling `Value`: a tagged
union of null, scalar, ordered list and ordered object. -/
inductive Value where
  | null
  | scalar (s : SVal)
  | list (l : List Value)
  | object (o : List (String × Value))
  deriving Repr

/-- Selections of a query, modelling `ast::Selection` with the `Spanning`
source position flattened into a `pos` field on each variant. -/
inductive Selection where
  | field (al : Option String) (name : String)
      (args : Option (List (String × InputValue)))
      (dirs : Option (List DirectiveM))
      (selSet : Option (List Selection)) (pos : Nat)
  | fragmentSpread (name : String) (dirs : Option (List DirectiveM))
      (pos : Nat)
  | inlineFragment (typeCond : Option String)
      (dirs : Option (List DirectiveM))
      (selSet : List Selection) (pos : Nat)

/-- Directives attached to a selection, for stating directive-exclusion
properties uniformly over the three variants. -/
def Selection.directives : Selection → Option (List DirectiveM)
  | .field _ _ _ dirs _ _ => dirs
  | .fragmentSpread _ dirs _ => dirs
  | .inlineFragment _ dirs _ _ => dirs

/-- Fragment definition resolved from the fragment table, modelling
`ast::Fragment`: a type condition and a selection set. -/
structure Fragment where
  typeCondition : String
  selectionSet : List Selection

/-- Per-field schema metadata, modelling `schema::meta::Field` restricted
to what the resolver consumes: declared argument metadata and whether the
declared field type is non-null. -/
structure MetaField where
  arguments : Option (List MetaArg)
  isNonNull : Bool

/-- Concrete meta type: field metadata looked up by field name, modelling
`MetaType::field_by_name`. -/
abbrev MetaTypeM : Type := List (String × MetaField)

/-- Accumulated (message, source position) error pairs of the executor's
error sink. -/
abbrev Errs : Type := List (String × Nat)

/-- Ordered result object under construction, modelling `value::Object`. -/
abbrev Obj : Type := List (String × Value)

/-- Modelled from the spec: `Object::add_field` (in `value/object.rs`,
outside `src/`) inserts or overwrites the entry for the response name,
preserving the first-seen position for ordering. -/
def addField (obj : Obj) (k : String) (v : Value) : Obj :=
  if containsKey obj k then
    List.map (fun p => if p.1 = k then (k, v) else p) obj
  else
    obj ++ [(k, v)]

/-- Merge helper, modelling `merge_key_into`: delegates to
`Object::add_field`. -/
def mergeKeyInto (result : Obj) (responseName : String) (value : Value) :
    Obj :=
  addField result responseName value

/-- Executor state consumed (not owned) by the resolver, modelling the
parts of `Executor` the core reads: variable bindings, the fragment table
and the schema's concrete-type lookup.  Sub-executor derivation only
narrows position/type information, so these parts are identical in every
derived sub-executor. -/
structure Exec where
  variableValues : Vars
  fragments : String → Option Fragment
  schema : String → Option MetaTypeM

/-- Capability record of a resolvable instance, modelling the object-safe
`GraphQLValue` trait: `typeName` (`none` models a panic on `.expect`),
`concreteTypeName`, and the user-supplied `resolveField` /
`resolveIntoType` callbacks, treated as black boxes returning
`Except error value`. -/
structure GValue where
  typeName : Option String
  concreteTypeName : String
  resolveField : String → ArgumentsM → Option (List Selection) →
    Except String Value
  resolveIntoType : String → List Selection → Except String Value

/-- Conversion of the query-supplied argument literals of one field from
AST form to resolved values against the current variables, modelling the
`map(|(k, v)| (k, v.into_const(exec_vars)))` collection in the `Field`
arm. -/
def convertFieldArgs (args : Option (List (String × InputValue)))
    (vars : Vars) : Option (List (String × InputValue)) :=
  args.map (fun m => m.map (fun kv => (kv.1, intoConst kv.2 vars)))

/-- Field arm of the `resolve_selection_set_into` loop (non-recursive;
`k` is resolution of the remaining selections): directive check, response
name computation, the `__typename` special case, field metadata lookup
(`none` = panic), argument materialization, resolver dispatch, and the
null-propagation / error-recording outcome analysis. -/
def fieldStep (v : GValue) (exec : Exec) (metaType : MetaTypeM)
    (al : Option String) (name : String)
    (fargs : Option (List (String × InputValue)))
    (dirs : Option (List DirectiveM)) (fsel : Option (List Selection))
    (pos : Nat) (k : Obj → Errs → Option (Bool × Obj × Errs))
    (res : Obj) (errs : Errs) : Option (Bool × Obj × Errs) :=
  match isExcluded dirs exec.variableValues with
  | none => none
  | some true => k res errs
  | some false =>
    let responseName := al.getD name
    if name = "__typename" then
      k (addField res responseName (Value.scalar (.str v.concreteTypeName)))
        errs
    else
      match lookupKey metaType name with
      | none => none
      | some metaField =>
        let as := ArgumentsM.new (convertFieldArgs fargs exec.variableValues)
          metaField.arguments
        match v.resolveField name as fsel with
        | .ok .null =>
          if metaField.isNonNull then some (false, res, errs)
          else k (mergeKeyInto res responseName .null) errs
        | .ok w => k (mergeKeyInto res responseName w) errs
        | .error e =>
          let errs2 := errs ++ [(e, pos)]
          if metaField.isNonNull then some (false, res, errs2)
          else k (addField res responseName .null) errs2

/-- Shared tail of both fragment arms once the type condition matched:
merge every key of an `Ok(Object)` sub-result, ignore any other `Ok`,
record an `Err` at the fragment's position, and continue with `k` in all
three cases. -/
def fragmentResultStep (subResult : Except String Value) (pos : Nat)
    (k : Obj → Errs → Option (Bool × Obj × Errs))
    (res : Obj) (errs : Errs) : Option (Bool × Obj × Errs) :=
  match subResult with
  | .ok (.object object) =>
    k (object.foldl (fun r kv => mergeKeyInto r kv.1 kv.2) res) errs
  | .ok _ => k res errs
  | .error e => k res (errs ++ [(e, pos)])

/-- FragmentSpread arm of the `resolve_selection_set_into` loop
(non-recursive; `k` is resolution of the remaining selections): directive
check, fragment table lookup (`none` = panic), concrete-type-name match
against the fragment's type condition, and on a match delegation to
`resolve_into_type` with merge/record of its result. -/
def spreadStep (v : GValue) (exec : Exec) (name : String)
    (dirs : Option (List DirectiveM)) (pos : Nat)
    (k : Obj → Errs → Option (Bool × Obj × Errs))
    (res : Obj) (errs : Errs) : Option (Bool × Obj × Errs) :=
  match isExcluded dirs exec.variableValues with
  | none => none
  | some true => k res errs
  | some false =>
    match exec.fragments name with
    | none => none
    | some fragment =>
      if fragment.typeCondition = v.concreteTypeName then
        fragmentResultStep
          (v.resolveIntoType fragment.typeCondition fragment.selectionSet)
          pos k res errs
      else k res errs

/-- Continuation applied to the result of the recursive
`resolve_selection_set_into` call of a type-condition-free inline
fragment: a panic propagates, a `false` return propagates immediately
with the state as mutated so far, and a `true` return continues with the
remaining selections. -/
def contAfterSub (sub : Option (Bool × Obj × Errs))
    (k : Obj → Errs → Option (Bool × Obj × Errs)) :
    Option (Bool × Obj × Errs) :=
  match sub with
  | none => none
  | some (false, res2, errs2) => some (false, res2, errs2)
  | some (true, res2, errs2) => k res2 errs2

/-- InlineFragment arm of the `resolve_selection_set_into` loop
(non-recursive; `k` resolves the remaining selections and `subResolve`
stands for the recursive `resolve_selection_set_into` call on the
fragment's own selections against the meta type it looks up): with a
type condition it behaves like a spread; without one it recurses
unconditionally into the same result object and propagates `false`
immediately. -/
def inlineStep (v : GValue) (exec : Exec) (typeCond : Option String)
    (dirs : Option (List DirectiveM)) (fsel : List Selection) (pos : Nat)
    (subResolve : MetaTypeM → Obj → Errs → Option (Bool × Obj × Errs))
    (k : Obj → Errs → Option (Bool × Obj × Errs))
    (res : Obj) (errs : Errs) : Option (Bool × Obj × Errs) :=
  match isExcluded dirs exec.variableValues with
  | none => none
  | some true => k res errs
  | some false =>
    match typeCond with
    | some tc =>
      if tc = v.concreteTypeName then
        fragmentResultStep (v.resolveIntoType tc fsel) pos k res errs
      else k res errs
    | none =>
      match v.typeName with
      | none => none
      | some tn =>
        match exec.schema tn with
        | none => none
        | some mt2 => contAfterSub (subResolve mt2 res errs) k

/-- Loop of `resolve_selection_set_into` over the selection list, with
the enclosing invocation's meta type already looked up; `none` models a
panic (`.expect` / `.unwrap` / `panic!`), and the result carries the
`bool` return value together with the mutated result object and error
sink.  Each arm dispatches to its step function, passing resolution of
the remaining selections as the continuation. -/
def rssGo (v : GValue) (exec : Exec) (metaType : MetaTypeM) :
    List Selection → Obj → Errs → Option (Bool × Obj × Errs)
  | [], res, errs => some (true, res, errs)
  | .field al name fargs dirs fsel pos :: rest, res, errs =>
    fieldStep v exec metaType al name fargs dirs fsel pos
      (fun r e => rssGo v exec metaType rest r e) res errs
  | .fragmentSpread name dirs pos :: rest, res, errs =>
    spreadStep v exec name dirs pos
      (fun r e => rssGo v exec metaType rest r e) res errs
  | .inlineFragment typeCond dirs fsel pos :: rest, res, errs =>
    inlineStep v exec typeCond dirs fsel pos
      (fun mt2 r e => rssGo v exec mt2 fsel r e)
      (fun r e => rssGo v exec metaType rest r e) res errs
  termination_by sels _ _ => sizeOf sels

/-- Selection-set resolver, modelling `resolve_selection_set_into`:
resolves the instance's type name (`.expect`), looks the concrete meta
type up in the schema (`.expect`), then walks the selections. -/
def resolveSelectionSetInto (v : GValue) (exec : Exec)
    (selectionSet : List Selection) (result : Obj) (errs : Errs) :
    Option (Bool × Obj × Errs) :=
  match v.typeName with
  | none => none
  | some tn =>
    match exec.schema tn with
    | none => none
    | some metaType => rssGo v exec metaType selectionSet result errs

/-- Default `GraphQLValue::resolve` implementation: with a selection set,
resolve it into a fresh object and wrap as `Ok(Object)` on `true` and
`Ok(Null)` on `false`; without one, panic. -/
def resolveDefault (v : GValue) (exec : Exec)
    (selectionSet : Option (List Selection)) (errs : Errs) :
    Option (Value × Errs) :=
  match selectionSet with
  | some sel =>
    match resolveSelectionSetInto v exec sel [] errs with
    | none => none
    | some (true, res, errs2) => some (Value.object res, errs2)
    | some (false, _, errs2) => some (Value.null, errs2)
  | none => none

/-- Object test on result values, used to state which fragment
sub-results get merged (`Ok(Value::Object(..))` vs any other `Ok`). -/
def Value.isObjectV : Value → Bool
  | .object _ => true
  | _ => false

/-- Sample meta type used by concrete witnesses: field `a` is non-null,
field `b` is non-null, field `c` is nullable; none declares arguments. -/
def sampleMetaT : MetaTypeM :=
  [("a", MetaField.mk none true), ("b", MetaField.mk none true),
   ("c", MetaField.mk none false)]

/-- Sample executor used by concrete witnesses: no variables, one
fragment `fragT` conditioned on type `T`, and a schema knowing only `T`. -/
def sampleExec : Exec :=
  { variableValues := []
    fragments := fun n => if n = "fragT" then some ⟨"T", []⟩ else none
    schema := fun n => if n = "T" then some sampleMetaT else none }

/-- Sample instance used by concrete witnesses: concrete type `T`; field
`a` resolves to `Ok(Null)`, fields `b` and `c` fail, anything else yields
a scalar; resolving into a type yields a one-key object. -/
def sampleV : GValue :=
  { typeName := some "T"
    concreteTypeName := "T"
    resolveField := fun name _ _ =>
      if name = "a" then .ok .null
      else if name = "b" then .error "boom"
      else if name = "c" then .error "boom"
      else .ok (.scalar (.str "x"))
    resolveIntoType := fun _ _ => .ok (.object [("k", .scalar (.int 1))]) }

/-- Sample instance whose `resolve_into_type` yields `Ok(Null)` (a
non-object success), for the non-object fragment sub-result witness. -/
def sampleV2 : GValue :=
  { sampleV with resolveIntoType := fun _ _ => .ok .null }

/-! ### Helper lemmas about the association-list operations -/

theorem lookupKey_nil {α : Type} (k : String) :
    lookupKey ([] : List (String × α)) k = none := rfl

theorem lookupKey_cons {α : Type} (k' : String) (v : α)
    (rest : List (String × α)) (k : String) :
    lookupKey ((k', v) :: rest) k =
      if k' = k then some v else lookupKey rest k := rfl

theorem lookupKey_append_of_none {α : Type} {m₁ : List (String × α)}
    (m₂ : List (String × α)) {k : String} (h : lookupKey m₁ k = none) :
    lookupKey (m₁ ++ m₂) k = lookupKey m₂ k := by
  induction m₁ with
  | nil => simp
  | cons p rest ih =>
    obtain ⟨k', v⟩ := p
    rw [lookupKey_cons] at h
    by_cases hk : k' = k
    · rw [if_pos hk] at h
      exact absurd h (by simp)
    · rw [if_neg hk] at h
      rw [List.cons_append, lookupKey_cons, if_neg hk]
      exact ih h

theorem lookupKey_append_single_ne {α : Type} (m : List (String × α))
    {k k' : String} (v : α) (h : k' ≠ k) :
    lookupKey (m ++ [(k, v)]) k' = lookupKey m k' := by
  induction m with
  | nil =>
    rw [List.nil_append, lookupKey_cons, if_neg (fun hh => h hh.symm)]
  | cons p rest ih =>
    obtain ⟨k₀, w⟩ := p
    rw [List.cons_append, lookupKey_cons, lookupKey_cons]
    by_cases h0 : k₀ = k'
    · rw [if_pos h0, if_pos h0]
    · rw [if_neg h0, if_neg h0]
      exact ih

theorem replaceFun_cons {α : Type} (k : String) (v : α) (k₀ : String)
    (w : α) :
    (if (k₀, w).1 = k then (k, v) else (k₀, w)) =
      if k₀ = k then (k, v) else (k₀, w) := rfl

theorem lookupKey_replace_self {α : Type} (m : List (String × α))
    (k : String) (v : α) :
    lookupKey (List.map (fun p => if p.1 = k then (k, v) else p) m) k =
      (lookupKey m k).map (fun _ => v) := by
  induction m with
  | nil => simp [lookupKey_nil]
  | cons p rest ih =>
    obtain ⟨k', w⟩ := p
    rw [List.map_cons, replaceFun_cons]
    by_cases hk : k' = k
    · rw [if_pos hk, lookupKey_cons, if_pos rfl, lookupKey_cons, if_pos hk,
        Option.map_some']
    · rw [if_neg hk, lookupKey_cons, if_neg hk, lookupKey_cons, if_neg hk]
      exact ih

theorem lookupKey_replace_ne {α : Type} (m : List (String × α))
    {k k' : String} (v : α) (h : k' ≠ k) :
    lookupKey (List.map (fun p => if p.1 = k then (k, v) else p) m) k' =
      lookupKey m k' := by
  induction m with
  | nil => simp
  | cons p rest ih =>
    obtain ⟨k₀, w⟩ := p
    rw [List.map_cons, replaceFun_cons]
    by_cases hk : k₀ = k
    · rw [if_pos hk, lookupKey_cons, if_neg (fun hh : k = k' => h hh.symm),
        lookupKey_cons, if_neg (fun hh : k₀ = k' => h (hk.symm.trans hh).symm)]
      exact ih
    · rw [lookupKey_cons, if_neg hk, lookupKey_cons]
      by_cases h0 : k₀ = k'
      · rw [if_pos h0, if_pos h0]
      · rw [if_neg h0, if_neg h0]
        exact ih

theorem lookupKey_of_not_contains {α : Type} {m : List (String × α)}
    {k : String} (h : ¬containsKey m k = true) : lookupKey m k = none := by
  unfold containsKey at h
  rcases hl : lookupKey m k with _ | w
  · rfl
  · rw [hl] at h
    simp at h

theorem lookupKey_insertIM_self {α : Type} (m : List (String × α))
    (k : String) (v : α) : lookupKey (insertIM m k v) k = some v := by
  unfold insertIM
  by_cases hc : containsKey m k = true
  · rw [if_pos hc, lookupKey_replace_self]
    unfold containsKey at hc
    rcases hl : lookupKey m k with _ | w
    · rw [hl] at hc
      simp at hc
    · rw [Option.map_some']
  · rw [if_neg hc, lookupKey_append_of_none _ (lookupKey_of_not_contains hc),
      lookupKey_cons, if_pos rfl]

theorem lookupKey_insertIM_ne {α : Type} (m : List (String × α))
    {k k' : String} (v : α) (h : k' ≠ k) :
    lookupKey (insertIM m k v) k' = lookupKey m k' := by
  unfold insertIM
  by_cases hc : containsKey m k = true
  · rw [if_pos hc]
    exact lookupKey_replace_ne m v h
  · rw [if_neg hc]
    exact lookupKey_append_single_ne m v h

theorem fillArgStep_lookup_ne {m : List (String × InputValue)}
    {arg : MetaArg} {name : String} (h : arg.name ≠ name) :
    lookupKey (fillArgStep m arg) name = lookupKey m name := by
  unfold fillArgStep
  by_cases hd : needsDefault m arg.name = true
  · rw [if_pos hd]
    rcases arg.defaultValue with _ | d
    · rfl
    · exact lookupKey_insertIM_ne m d (fun hh => h hh.symm)
  · rw [if_neg hd]

theorem foldl_fill_lookup_of_not_mem {mas : List MetaArg}
    {name : String} (h : ∀ a ∈ mas, a.name ≠ name)
    (m : List (String × InputValue)) :
    lookupKey (mas.foldl fillArgStep m) name = lookupKey m name := by
  induction mas generalizing m with
  | nil => rfl
  | cons a rest ih =>
    rw [List.foldl_cons, ih (fun b hb => h b (List.mem_cons_of_mem a hb))]
    exact fillArgStep_lookup_ne (h a (List.mem_cons_self a rest))

theorem needsDefault_eq_of_lookup {m m' : List (String × InputValue)}
    {name : String} (h : lookupKey m name = lookupKey m' name) :
    needsDefault m name = needsDefault m' name := by
  unfold needsDefault
  rw [h]

theorem foldl_fill_preserves_supplied {mas : List MetaArg}
    {key : String} {iv : InputValue} (hnull : iv.isNull = false) :
    ∀ m : List (String × InputValue), lookupKey m key = some iv →
      lookupKey (mas.foldl fillArgStep m) key = some iv := by
  induction mas with
  | nil => intro m hm; exact hm
  | cons a rest ih =>
    intro m hm
    rw [List.foldl_cons]
    apply ih
    by_cases hk : a.name = key
    · have hnd : needsDefault m a.name = false := by
        unfold needsDefault
        rw [hk, hm]
        exact hnull
      unfold fillArgStep
      rw [hnd]
      simp [hm]
    · rw [fillArgStep_lookup_ne hk]
      exact hm

theorem foldl_fill_sets_default {arg : MetaArg} {d : InputValue}
    (hdef : arg.defaultValue = some d) :
    ∀ (mas : List MetaArg) (m : List (String × InputValue)),
      arg ∈ mas → (mas.map MetaArg.name).Nodup →
      needsDefault m arg.name = true →
      lookupKey (mas.foldl fillArgStep m) arg.name = some d := by
  intro mas
  induction mas with
  | nil =>
    intro m hmem
    simp at hmem
  | cons a rest ih =>
    intro m hmem hnodup hneed
    rw [List.map_cons, List.nodup_cons] at hnodup
    rcases List.mem_cons.mp hmem with heq | htl
    · subst heq
      rw [List.foldl_cons]
      have hrest : ∀ b ∈ rest, b.name ≠ arg.name := by
        intro b hb hbn
        exact hnodup.1 (hbn ▸ List.mem_map_of_mem MetaArg.name hb)
      rw [foldl_fill_lookup_of_not_mem hrest]
      unfold fillArgStep
      rw [hneed, hdef]
      exact lookupKey_insertIM_self m arg.name d
    · have hane : a.name ≠ arg.name := by
        intro hh
        exact hnodup.1 (hh ▸ List.mem_map_of_mem MetaArg.name htl)
      rw [List.foldl_cons]
      apply ih (fillArgStep m a) htl hnodup.2
      rw [needsDefault_eq_of_lookup (fillArgStep_lookup_ne hane)]
      exact hneed

/-! ### C3: Arguments::new default filling -/

/-- C3: `Arguments::new` starts from an empty mapping when metadata is
declared but no arguments were supplied (so defaults are still filled);
each declared argument with a default value whose key is absent or `Null`
in the supplied mapping ends up stored as (a clone of) the default; and a
supplied non-null value is never replaced by the default. -/
theorem c3_arguments_new_defaults (mas : List MetaArg)
    (m : List (String × InputValue)) :
    (ArgumentsM.new none (some mas) = ArgumentsM.new (some []) (some mas))
    ∧ (∀ arg ∈ mas, ∀ d : InputValue, (mas.map MetaArg.name).Nodup →
        arg.defaultValue = some d → needsDefault m arg.name = true →
        (ArgumentsM.new (some m) (some mas)).args.bind
          (fun l => lookupKey l arg.name) = some d)
    ∧ (∀ (key : String) (iv : InputValue), lookupKey m key = some iv →
        iv.isNull = false →
        (ArgumentsM.new (some m) (some mas)).args.bind
          (fun l => lookupKey l key) = some iv) := by
  refine ⟨rfl, ?_, ?_⟩
  · intro arg hmem d hnodup hdef hneed
    simp only [ArgumentsM.new, Option.some_bind]
    exact foldl_fill_sets_default hdef mas m hmem hnodup hneed
  · intro key iv hsup hnull
    simp only [ArgumentsM.new, Option.some_bind]
    exact foldl_fill_preserves_supplied hnull m hsup

/-- C3 witness: with argument `limit` defaulting to `10` and a supplied
`limit: null`, the stored value is the default. -/
theorem c3_witness :
    (ArgumentsM.new (some [("limit", InputValue.null)])
        (some [MetaArg.mk "limit"
          (some (InputValue.scalar (SVal.int 10)))])).args.bind
      (fun l => lookupKey l "limit") =
      some (InputValue.scalar (SVal.int 10)) :=
  (c3_arguments_new_defaults
      [MetaArg.mk "limit" (some (InputValue.scalar (SVal.int 10)))]
      [("limit", InputValue.null)]).2.1
    (MetaArg.mk "limit" (some (InputValue.scalar (SVal.int 10))))
    (by decide) (InputValue.scalar (SVal.int 10)) (by decide) rfl rfl

/-! ### C4, C5: the directive evaluator -/

/-- C4: when every attached directive's `if` condition evaluates,
`is_excluded` returns (rather than panicking), and it returns `true` if
and only if some attached directive is named `skip` with its condition
true, or named `include` with its condition false — multiple directives
combine by logical OR. -/
theorem c4_is_excluded_iff (dirs : List DirectiveM) (vars : Vars)
    (h : ∀ d ∈ dirs, (evalCondition d vars).isSome = true) :
    (isExcluded (some dirs) vars).isSome = true
    ∧ (isExcluded (some dirs) vars = some true ↔
        ∃ d ∈ dirs, (d.name = "skip" ∧ evalCondition d vars = some true) ∨
          (d.name = "include" ∧ evalCondition d vars = some false)) := by
  induction dirs with
  | nil =>
    refine ⟨rfl, ?_⟩
    simp [isExcluded, isExcludedGo]
  | cons d rest ih =>
    have hd := h d (List.mem_cons_self d rest)
    rcases hc : evalCondition d vars with _ | c
    · rw [hc] at hd
      simp at hd
    · have ihr := ih (fun b hb => h b (List.mem_cons_of_mem d hb))
      simp only [isExcluded] at ihr ⊢
      simp only [isExcludedGo, hc]
      by_cases hcond :
          ((d.name = "skip" && c) || (d.name = "include" && !c)) = true
      · rw [if_pos hcond]
        refine ⟨rfl, ?_⟩
        simp only [Bool.or_eq_true, Bool.and_eq_true, decide_eq_true_eq,
          Bool.not_eq_true'] at hcond
        constructor
        · intro _
          refine ⟨d, List.mem_cons_self d rest, ?_⟩
          rcases hcond with ⟨h1, h2⟩ | ⟨h1, h2⟩
          · exact Or.inl ⟨h1, h2 ▸ hc⟩
          · exact Or.inr ⟨h1, h2 ▸ hc⟩
        · intro _
          rfl
      · rw [if_neg hcond]
        refine ⟨ihr.1, ?_⟩
        rw [ihr.2]
        constructor
        · rintro ⟨b, hb, hbp⟩
          exact ⟨b, List.mem_cons_of_mem d hb, hbp⟩
        · rintro ⟨b, hb, hbp⟩
          rcases List.mem_cons.mp hb with heq | htl
          · exfalso
            apply hcond
            simp only [Bool.or_eq_true, Bool.and_eq_true, decide_eq_true_eq,
              Bool.not_eq_true']
            subst heq
            rcases hbp with ⟨h1, h2⟩ | ⟨h1, h2⟩
            · rw [hc] at h2
              exact Or.inl ⟨h1, Option.some.inj h2⟩
            · rw [hc] at h2
              exact Or.inr ⟨h1, Option.some.inj h2⟩
          · exact ⟨b, htl, hbp⟩

/-- C4 witness: a single `skip` directive with a literal `true` condition
excludes the selection. -/
theorem c4_witness :
    isExcluded
      (some [DirectiveM.mk "skip"
        (some [("if", InputValue.scalar (SVal.bool true))])]) [] =
      some true :=
  (c4_is_excluded_iff
      [DirectiveM.mk "skip" (some [("if", InputValue.scalar (SVal.bool true))])]
      [] (by decide)).2.mpr
    ⟨DirectiveM.mk "skip" (some [("if", InputValue.scalar (SVal.bool true))]),
      by decide, Or.inl ⟨rfl, by decide⟩⟩

/-- C5 counterexample: an unrecognized directive named `other` carrying no
arguments makes `is_excluded` panic (the condition is `.unwrap()`ped
before the directive name is examined), instead of being ignored with a
normal `false` return as the claim states. -/
theorem c5_counterexample :
    isExcluded (some [DirectiveM.mk "other" none]) [] = none
    ∧ isExcluded (some [DirectiveM.mk "other" none]) [] ≠ some false := by
  exact ⟨rfl, by decide⟩

/-- C5 (amended): when every attached directive has a name other than
`skip` and `include` and carries an `if` argument whose condition
evaluates to a boolean, `is_excluded` ignores them all and returns
`false`; with any directive whose condition fails to evaluate, the
evaluator panics instead. -/
theorem c5_unknown_directives_ignored (dirs : List DirectiveM) (vars : Vars)
    (hn : ∀ d ∈ dirs, d.name ≠ "skip" ∧ d.name ≠ "include")
    (hc : ∀ d ∈ dirs, (evalCondition d vars).isSome = true) :
    isExcluded (some dirs) vars = some false := by
  induction dirs with
  | nil => rfl
  | cons d rest ih =>
    have hd := hc d (List.mem_cons_self d rest)
    rcases hcv : evalCondition d vars with _ | c
    · rw [hcv] at hd
      simp at hd
    · have h1 := (hn d (List.mem_cons_self d rest)).1
      have h2 := (hn d (List.mem_cons_self d rest)).2
      have hcond :
          ((d.name = "skip" && c) || (d.name = "include" && !c)) = false := by
        simp [h1, h2]
      simp only [isExcluded, isExcludedGo, hcv, hcond, Bool.false_eq_true,
        if_false]
      exact ih (fun b hb => hn b (List.mem_cons_of_mem d hb))
        (fun b hb => hc b (List.mem_cons_of_mem d hb))

/-- C5 witness: a directive with a custom name and a well-typed `if`
argument is ignored. -/
theorem c5_witness :
    isExcluded
      (some [DirectiveM.mk "customDir"
        (some [("if", InputValue.scalar (SVal.bool true))])]) [] =
      some false :=
  c5_unknown_directives_ignored
    [DirectiveM.mk "customDir"
      (some [("if", InputValue.scalar (SVal.bool true))])]
    [] (by decide) (by decide)

/-! ### C8: Arguments::get -/

/-- C8: `Arguments::get` returns `some t` exactly when the argument
mapping exists, contains the key, and the stored value converts
successfully; absence of the key and conversion failure both yield `none`
and are indistinguishable through this call. -/
theorem c8_arguments_get {α : Type} (a : ArgumentsM)
    (conv : InputValue → Option α) (key : String) (t : α) :
    a.get conv key = some t ↔
      ∃ m iv, a.args = some m ∧ lookupKey m key = some iv ∧
        conv iv = some t := by
  obtain ⟨args⟩ := a
  rcases args with _ | m
  · simp [ArgumentsM.get]
  · simp only [ArgumentsM.get, Option.some_bind]
    rcases hl : lookupKey m key with _ | iv
    · simp [hl]
    · simp [hl]

/-! ### Unfolding lemmas for the resolver -/

theorem rssGo_nil (v : GValue) (exec : Exec) (mt : MetaTypeM) (res : Obj)
    (errs : Errs) : rssGo v exec mt [] res errs = some (true, res, errs) := by
  simp only [rssGo]

theorem rssGo_cons_field (v : GValue) (exec : Exec) (mt : MetaTypeM)
    (al : Option String) (name : String)
    (fargs : Option (List (String × InputValue)))
    (dirs : Option (List DirectiveM)) (fsel : Option (List Selection))
    (pos : Nat) (rest : List Selection) (res : Obj) (errs : Errs) :
    rssGo v exec mt (Selection.field al name fargs dirs fsel pos :: rest)
        res errs =
      fieldStep v exec mt al name fargs dirs fsel pos
        (fun r e => rssGo v exec mt rest r e) res errs := by
  simp only [rssGo]

theorem rssGo_cons_spread (v : GValue) (exec : Exec) (mt : MetaTypeM)
    (name : String) (dirs : Option (List DirectiveM)) (pos : Nat)
    (rest : List Selection) (res : Obj) (errs : Errs) :
    rssGo v exec mt (Selection.fragmentSpread name dirs pos :: rest)
        res errs =
      spreadStep v exec name dirs pos
        (fun r e => rssGo v exec mt rest r e) res errs := by
  simp only [rssGo]

theorem rssGo_cons_inline (v : GValue) (exec : Exec) (mt : MetaTypeM)
    (typeCond : Option String) (dirs : Option (List DirectiveM))
    (fsel : List Selection) (pos : Nat) (rest : List Selection)
    (res : Obj) (errs : Errs) :
    rssGo v exec mt
        (Selection.inlineFragment typeCond dirs fsel pos :: rest) res errs =
      inlineStep v exec typeCond dirs fsel pos
        (fun mt2 r e => rssGo v exec mt2 fsel r e)
        (fun r e => rssGo v exec mt rest r e) res errs := by
  simp only [rssGo]

theorem resolveSelectionSetInto_go {v : GValue} {exec : Exec} {tn : String}
    {mt : MetaTypeM} (htn : v.typeName = some tn)
    (hs : exec.schema tn = some mt) (sels : List Selection) (res : Obj)
    (errs : Errs) :
    resolveSelectionSetInto v exec sels res errs =
      rssGo v exec mt sels res errs := by
  simp only [resolveSelectionSetInto, htn, hs]

theorem resolveSelectionSetInto_cons_cont {v : GValue} {exec : Exec}
    {s : Selection} {rest : List Selection} {res res2 : Obj}
    {errs errs2 : Errs}
    (H : ∀ mt : MetaTypeM, rssGo v exec mt (s :: rest) res errs =
      rssGo v exec mt rest res2 errs2) :
    resolveSelectionSetInto v exec (s :: rest) res errs =
      resolveSelectionSetInto v exec rest res2 errs2 := by
  rcases htn : v.typeName with _ | tn
  · simp only [resolveSelectionSetInto, htn]
  · rcases hs : exec.schema tn with _ | mt
    · simp only [resolveSelectionSetInto, htn, hs]
    · simp only [resolveSelectionSetInto, htn, hs]
      exact H mt

/-- Shared unfolding of the field arm's abort on a successful `Null`
result for a non-null field: the loop stops with `false`, the result
object and error sink untouched, independently of the continuation. -/
theorem fieldStep_ok_null_nonnull {v : GValue} {exec : Exec}
    {mt : MetaTypeM} {al : Option String} {name : String}
    {fargs : Option (List (String × InputValue))}
    {dirs : Option (List DirectiveM)} {fsel : Option (List Selection)}
    {pos : Nat} {mf : MetaField}
    (k : Obj → Errs → Option (Bool × Obj × Errs)) (res : Obj) (errs : Errs)
    (hex : isExcluded dirs exec.variableValues = some false)
    (hname : name ≠ "__typename")
    (hmf : lookupKey mt name = some mf)
    (hnn : mf.isNonNull = true)
    (hres : v.resolveField name
      (ArgumentsM.new (convertFieldArgs fargs exec.variableValues)
        mf.arguments) fsel = .ok .null) :
    fieldStep v exec mt al name fargs dirs fsel pos k res errs =
      some (false, res, errs) := by
  simp only [fieldStep, hex, if_neg hname, hmf, hres, hnn, if_true]

/-! ### C1: non-null field resolving to Null aborts the selection set -/

/-- C1: when a non-excluded field whose declared type is non-null has its
resolver return `Ok(Null)`, `resolve_selection_set_into` returns `false`
immediately — the remaining selections are untouched and the state is
returned as-is — and the enclosing default `resolve` therefore yields
`Ok(Null)` rather than a partial object. -/
theorem c1_nonnull_null_aborts (v : GValue) (exec : Exec) (tn : String)
    (mt : MetaTypeM) (al : Option String) (name : String)
    (fargs : Option (List (String × InputValue)))
    (dirs : Option (List DirectiveM)) (fsel : Option (List Selection))
    (pos : Nat) (rest : List Selection) (res : Obj) (errs : Errs)
    (mf : MetaField)
    (htn : v.typeName = some tn)
    (hs : exec.schema tn = some mt)
    (hex : isExcluded dirs exec.variableValues = some false)
    (hname : name ≠ "__typename")
    (hmf : lookupKey mt name = some mf)
    (hnn : mf.isNonNull = true)
    (hres : v.resolveField name
      (ArgumentsM.new (convertFieldArgs fargs exec.variableValues)
        mf.arguments) fsel = .ok .null) :
    resolveSelectionSetInto v exec
        (Selection.field al name fargs dirs fsel pos :: rest) res errs =
      some (false, res, errs)
    ∧ resolveDefault v exec
        (some (Selection.field al name fargs dirs fsel pos :: rest)) errs =
      some (Value.null, errs) := by
  have key : ∀ (r : Obj) (e : Errs),
      resolveSelectionSetInto v exec
        (Selection.field al name fargs dirs fsel pos :: rest) r e =
      some (false, r, e) := by
    intro r e
    rw [resolveSelectionSetInto_go htn hs, rssGo_cons_field]
    exact fieldStep_ok_null_nonnull _ r e hex hname hmf hnn hres
  refine ⟨key res errs, ?_⟩
  simp only [resolveDefault, key [] errs]

/-- C1 witness: field `a` of the sample schema is non-null and its
resolver yields `Ok(Null)`, so the selection set aborts to `Null`. -/
theorem c1_witness :
    resolveSelectionSetInto sampleV sampleExec
        [Selection.field none "a" none none none 3] [] [] =
      some (false, [], [])
    ∧ resolveDefault sampleV sampleExec
        (some [Selection.field none "a" none none none 3]) [] =
      some (Value.null, []) :=
  c1_nonnull_null_aborts sampleV sampleExec "T" sampleMetaT none "a" none
    none none 3 [] [] [] (MetaField.mk none true) rfl rfl rfl (by decide)
    rfl rfl rfl

/-! ### C10: the Null-abort of C1 records no error -/

/-- C10: when the abort of C1 fires (resolver returns `Ok(Null)` for a
non-null field), the error sink component of the outcome is exactly the
sink passed in — no error is recorded, unlike the `Err` path. -/
theorem c10_null_abort_no_error (v : GValue) (exec : Exec) (tn : String)
    (mt : MetaTypeM) (al : Option String) (name : String)
    (fargs : Option (List (String × InputValue)))
    (dirs : Option (List DirectiveM)) (fsel : Option (List Selection))
    (pos : Nat) (rest : List Selection) (res : Obj) (errs : Errs)
    (mf : MetaField)
    (htn : v.typeName = some tn)
    (hs : exec.schema tn = some mt)
    (hex : isExcluded dirs exec.variableValues = some false)
    (hname : name ≠ "__typename")
    (hmf : lookupKey mt name = some mf)
    (hnn : mf.isNonNull = true)
    (hres : v.resolveField name
      (ArgumentsM.new (convertFieldArgs fargs exec.variableValues)
        mf.arguments) fsel = .ok .null) :
    Option.map (fun t : Bool × Obj × Errs => t.2.2)
        (resolveSelectionSetInto v exec
          (Selection.field al name fargs dirs fsel pos :: rest) res errs) =
      some errs := by
  rw [resolveSelectionSetInto_go htn hs, rssGo_cons_field,
    fieldStep_ok_null_nonnull _ res errs hex hname hmf hnn hres]
  rfl

/-- C10 witness: the error sink stays empty when sample field `a` aborts
the selection set. -/
theorem c10_witness :
    Option.map (fun t : Bool × Obj × Errs => t.2.2)
        (resolveSelectionSetInto sampleV sampleExec
          [Selection.field none "a" none none none 3] [] []) =
      some [] :=
  c10_null_abort_no_error sampleV sampleExec "T" sampleMetaT none "a" none
    none none 3 [] [] [] (MetaField.mk none true) rfl rfl rfl (by decide)
    rfl rfl rfl

/-! ### C2: the Err path records one error and recovers or aborts -/

/-- C2: when a non-excluded field's resolver returns `Err(e)`, exactly
one error `(e, pos)` is appended to the sink at the field's source
position; then a non-null field aborts with `false` while a nullable
field merges `Null` under its response name and resolution continues
with the remaining selections. -/
theorem c2_error_recording (v : GValue) (exec : Exec) (tn : String)
    (mt : MetaTypeM) (al : Option String) (name : String)
    (fargs : Option (List (String × InputValue)))
    (dirs : Option (List DirectiveM)) (fsel : Option (List Selection))
    (pos : Nat) (rest : List Selection) (res : Obj) (errs : Errs)
    (mf : MetaField) (e : String)
    (htn : v.typeName = some tn)
    (hs : exec.schema tn = some mt)
    (hex : isExcluded dirs exec.variableValues = some false)
    (hname : name ≠ "__typename")
    (hmf : lookupKey mt name = some mf)
    (hres : v.resolveField name
      (ArgumentsM.new (convertFieldArgs fargs exec.variableValues)
        mf.arguments) fsel = .error e) :
    (mf.isNonNull = true →
      resolveSelectionSetInto v exec
          (Selection.field al name fargs dirs fsel pos :: rest) res errs =
        some (false, res, errs ++ [(e, pos)]))
    ∧ (mf.isNonNull = false →
      resolveSelectionSetInto v exec
          (Selection.field al name fargs dirs fsel pos :: rest) res errs =
        resolveSelectionSetInto v exec rest
          (addField res (al.getD name) Value.null) (errs ++ [(e, pos)])) := by
  constructor
  · intro hnn
    rw [resolveSelectionSetInto_go htn hs, rssGo_cons_field]
    simp only [fieldStep, hex, if_neg hname, hmf, hres, hnn, if_true]
  · intro hnn
    rw [resolveSelectionSetInto_go htn hs, rssGo_cons_field,
      resolveSelectionSetInto_go htn hs]
    simp only [fieldStep, hex, if_neg hname, hmf, hres, hnn,
      Bool.false_eq_true, if_false]

/-- C2 witness: sample field `b` is non-null and errors, so its error is
recorded at its position and the selection set aborts. -/
theorem c2_witness :
    resolveSelectionSetInto sampleV sampleExec
        [Selection.field none "b" none none none 7] [] [] =
      some (false, [], [("boom", 7)]) :=
  (c2_error_recording sampleV sampleExec "T" sampleMetaT none "b" none none
    none 7 [] [] [] (MetaField.mk none true) "boom" rfl rfl rfl (by decide)
    rfl rfl).1 rfl

/-! ### C7: excluded selections contribute nothing -/

/-- C7: a selection whose directives evaluate to excluded is skipped
entirely: it contributes no key, invokes no resolver, records no error
and cannot make the resolver return `false` — resolution of the
remaining selections proceeds from an unchanged state. -/
theorem c7_excluded_contributes_nothing (v : GValue) (exec : Exec)
    (s : Selection) (rest : List Selection) (res : Obj) (errs : Errs)
    (h : isExcluded s.directives exec.variableValues = some true) :
    resolveSelectionSetInto v exec (s :: rest) res errs =
      resolveSelectionSetInto v exec rest res errs := by
  apply resolveSelectionSetInto_cons_cont
  intro mt
  cases s with
  | field al name fargs dirs fsel pos =>
    simp only [Selection.directives] at h
    rw [rssGo_cons_field]
    simp only [fieldStep, h]
  | fragmentSpread name dirs pos =>
    simp only [Selection.directives] at h
    rw [rssGo_cons_spread]
    simp only [spreadStep, h]
  | inlineFragment tc dirs fsel pos =>
    simp only [Selection.directives] at h
    rw [rssGo_cons_inline]
    simp only [inlineStep, h]

/-- C7 witness: a `skip(if: true)` directive on a field whose resolver
would fail leaves the resolution of the remaining (empty) selection list
unchanged. -/
theorem c7_witness :
    resolveSelectionSetInto sampleV sampleExec
        [Selection.field none "b" none
          (some [DirectiveM.mk "skip"
            (some [("if", InputValue.scalar (SVal.bool true))])])
          none 7] [] [] =
      resolveSelectionSetInto sampleV sampleExec [] [] [] :=
  c7_excluded_contributes_nothing sampleV sampleExec
    (Selection.field none "b" none
      (some [DirectiveM.mk "skip"
        (some [("if", InputValue.scalar (SVal.bool true))])])
      none 7) [] [] [] rfl

/-! ### C6: fragment type-condition matching -/

/-- C6: for a fragment spread or an inline fragment with an explicit type
condition, a mismatch with the instance's concrete type name contributes
nothing (no keys, no error, resolution continues); on a match,
`resolve_into_type` is invoked with the fragment's selection set, every
key of an `Ok(Object)` result is merged into the enclosing result
object, and an `Err` result is recorded at the fragment's source
position. -/
theorem c6_fragment_type_matching (v : GValue) (exec : Exec)
    (fname : String) (sdirs idirs : Option (List DirectiveM))
    (spos ipos : Nat) (frag : Fragment) (tc : String)
    (ifsel : List Selection) (rest : List Selection) (res : Obj)
    (errs : Errs)
    (hfrag : exec.fragments fname = some frag)
    (hexs : isExcluded sdirs exec.variableValues = some false)
    (hexi : isExcluded idirs exec.variableValues = some false) :
    (frag.typeCondition ≠ v.concreteTypeName →
      resolveSelectionSetInto v exec
          (Selection.fragmentSpread fname sdirs spos :: rest) res errs =
        resolveSelectionSetInto v exec rest res errs)
    ∧ (frag.typeCondition = v.concreteTypeName →
        (∀ object : List (String × Value),
          v.resolveIntoType frag.typeCondition frag.selectionSet =
            .ok (.object object) →
          resolveSelectionSetInto v exec
              (Selection.fragmentSpread fname sdirs spos :: rest) res errs =
            resolveSelectionSetInto v exec rest
              (object.foldl (fun r kv => mergeKeyInto r kv.1 kv.2) res)
              errs)
        ∧ (∀ e : String,
          v.resolveIntoType frag.typeCondition frag.selectionSet =
            .error e →
          resolveSelectionSetInto v exec
              (Selection.fragmentSpread fname sdirs spos :: rest) res errs =
            resolveSelectionSetInto v exec rest res (errs ++ [(e, spos)])))
    ∧ (tc ≠ v.concreteTypeName →
      resolveSelectionSetInto v exec
          (Selection.inlineFragment (some tc) idirs ifsel ipos :: rest)
          res errs =
        resolveSelectionSetInto v exec rest res errs)
    ∧ (tc = v.concreteTypeName →
        (∀ object : List (String × Value),
          v.resolveIntoType tc ifsel = .ok (.object object) →
          resolveSelectionSetInto v exec
              (Selection.inlineFragment (some tc) idirs ifsel ipos :: rest)
              res errs =
            resolveSelectionSetInto v exec rest
              (object.foldl (fun r kv => mergeKeyInto r kv.1 kv.2) res)
              errs)
        ∧ (∀ e : String,
          v.resolveIntoType tc ifsel = .error e →
          resolveSelectionSetInto v exec
              (Selection.inlineFragment (some tc) idirs ifsel ipos :: rest)
              res errs =
            resolveSelectionSetInto v exec rest res
              (errs ++ [(e, ipos)]))) := by
  refine ⟨?_, fun heq => ⟨?_, ?_⟩, ?_, fun heq => ⟨?_, ?_⟩⟩
  · intro hne
    apply resolveSelectionSetInto_cons_cont
    intro mt
    rw [rssGo_cons_spread]
    simp only [spreadStep, hexs, hfrag, if_neg hne]
  · intro object hok
    apply resolveSelectionSetInto_cons_cont
    intro mt
    rw [rssGo_cons_spread]
    simp only [spreadStep, hexs, hfrag, if_pos heq, hok,
      fragmentResultStep]
  · intro e herr
    apply resolveSelectionSetInto_cons_cont
    intro mt
    rw [rssGo_cons_spread]
    simp only [spreadStep, hexs, hfrag, if_pos heq, herr,
      fragmentResultStep]
  · intro hne
    apply resolveSelectionSetInto_cons_cont
    intro mt
    rw [rssGo_cons_inline]
    simp only [inlineStep, hexi, if_neg hne]
  · intro object hok
    apply resolveSelectionSetInto_cons_cont
    intro mt
    rw [rssGo_cons_inline]
    simp only [inlineStep, hexi, if_pos heq, hok, fragmentResultStep]
  · intro e herr
    apply resolveSelectionSetInto_cons_cont
    intro mt
    rw [rssGo_cons_inline]
    simp only [inlineStep, hexi, if_pos heq, herr, fragmentResultStep]

/-- C6 witness: the sample fragment `fragT` matches concrete type `T`,
its one-key object sub-result is merged, and resolution continues. -/
theorem c6_witness :
    resolveSelectionSetInto sampleV sampleExec
        [Selection.fragmentSpread "fragT" none 2] [] [] =
      resolveSelectionSetInto sampleV sampleExec []
        (List.foldl (fun r kv => mergeKeyInto r kv.1 kv.2) []
          [("k", Value.scalar (SVal.int 1))]) [] :=
  ((c6_fragment_type_matching sampleV sampleExec "fragT" none none 2 0
      (Fragment.mk "T" []) "T" [] [] [] [] rfl rfl rfl).2.1 rfl).1
    [("k", Value.scalar (SVal.int 1))] rfl

/-! ### C9: non-object fragment sub-results are dropped silently -/

/-- C9: when a type-condition-matched fragment's `resolve_into_type`
returns `Ok` of a non-object value (in particular `Ok(Null)` from a
non-null violation inside the fragment), nothing is merged, no error is
recorded, and resolution continues — the enclosing selection set is not
forced to `Null`. -/
theorem c9_non_object_fragment_result (v : GValue) (exec : Exec)
    (fname : String) (sdirs idirs : Option (List DirectiveM))
    (spos ipos : Nat) (frag : Fragment) (tc : String)
    (ifsel : List Selection) (rest : List Selection) (res : Obj)
    (errs : Errs) (w : Value)
    (hfrag : exec.fragments fname = some frag)
    (hexs : isExcluded sdirs exec.variableValues = some false)
    (hexi : isExcluded idirs exec.variableValues = some false)
    (hw : w.isObjectV = false) :
    (frag.typeCondition = v.concreteTypeName →
      v.resolveIntoType frag.typeCondition frag.selectionSet = .ok w →
      resolveSelectionSetInto v exec
          (Selection.fragmentSpread fname sdirs spos :: rest) res errs =
        resolveSelectionSetInto v exec rest res errs)
    ∧ (tc = v.concreteTypeName →
      v.resolveIntoType tc ifsel = .ok w →
      resolveSelectionSetInto v exec
          (Selection.inlineFragment (some tc) idirs ifsel ipos :: rest)
          res errs =
        resolveSelectionSetInto v exec rest res errs) := by
  constructor
  · intro heq hok
    apply resolveSelectionSetInto_cons_cont
    intro mt
    rw [rssGo_cons_spread]
    simp only [spreadStep, hexs, hfrag, if_pos heq, hok]
    cases w with
    | object o => simp [Value.isObjectV] at hw
    | null => simp only [fragmentResultStep]
    | scalar sc => simp only [fragmentResultStep]
    | list l => simp only [fragmentResultStep]
  · intro heq hok
    apply resolveSelectionSetInto_cons_cont
    intro mt
    rw [rssGo_cons_inline]
    simp only [inlineStep, hexi, if_pos heq, hok]
    cases w with
    | object o => simp [Value.isObjectV] at hw
    | null => simp only [fragmentResultStep]
    | scalar sc => simp only [fragmentResultStep]
    | list l => simp only [fragmentResultStep]

/-- C9 witness: with a variant instance whose `resolve_into_type` yields
`Ok(Null)`, the matched sample fragment contributes nothing and no error
is recorded. -/
theorem c9_witness :
    resolveSelectionSetInto sampleV2 sampleExec
        [Selection.fragmentSpread "fragT" none 2] [] [] =
      resolveSelectionSetInto sampleV2 sampleExec [] [] [] :=
  (c9_non_object_fragment_result sampleV2 sampleExec "fragT" none none 2 0
      (Fragment.mk "T" []) "T" [] [] [] [] Value.null rfl rfl rfl rfl).1
    rfl rfl

end Juniper
